import Mathlib

/-!
# Verification of the hr-hiring-signals scoring core

Shallow embedding of the composite scoring engine, company-name
normalizer, and persistence logic of the `hr_alerter` package
(`src/hr_alerter/scoring/*.py`, `scrapers/utils.py`, `db/manager.py`,
`steps/normalize_companies.py`, `steps/score_companies.py`).

Database-backed functions take the relevant rows as explicit values: a
`(conn, company_id)` pair in Python becomes the list of that company's
`job_postings` rows plus its `companies` row fields; dates are embedded
as integer day offsets relative to the scoring run's `now`.
-/

set_option autoImplicit false

namespace HrAlerter

/-! ## Python string primitives (character-wise models) -/

/-- Whitespace characters stripped by Python's `str.strip()` (ASCII set;
the repository's data uses only these). -/
def pyIsSpace (c : Char) : Bool :=
  c == ' ' || c == '\t' || c == '\n' || c == '\r' ||
    c == Char.ofNat 11 || c == Char.ofNat 12

/-- Model of Python's `str.lower()` applied character-wise: ASCII
letters plus the uppercase Polish letters that occur in the legal-suffix
table and in scraped names. -/
def pyLower (c : Char) : Char :=
  if 'A' ≤ c && c ≤ 'Z' then Char.ofNat (c.toNat + 32)
  else if c == 'Ó' then 'ó'
  else if c == 'Ł' then 'ł'
  else if c == 'Ą' then 'ą'
  else if c == 'Ć' then 'ć'
  else if c == 'Ę' then 'ę'
  else if c == 'Ń' then 'ń'
  else if c == 'Ś' then 'ś'
  else if c == 'Ź' then 'ź'
  else if c == 'Ż' then 'ż'
  else c

/-- `str.strip()` over a character list. -/
def stripList (l : List Char) : List Char :=
  ((l.dropWhile pyIsSpace).reverse.dropWhile pyIsSpace).reverse

/-- `str.rstrip(",")` over a character list. -/
def rstripCommaList (l : List Char) : List Char :=
  (l.reverse.dropWhile (fun c => c == ',')).reverse

/-- `pat` is a prefix of the second list (Python slice comparison). -/
def prefixOf : List Char → List Char → Bool
  | [], _ => true
  | _ :: _, [] => false
  | a :: as, b :: bs => a == b && prefixOf as bs

/-- Python's substring test `pat in hay`. -/
def containsSub (pat : List Char) : List Char → Bool
  | [] => prefixOf pat []
  | c :: t => prefixOf pat (c :: t) || containsSub pat t

/-- Helper for `rfind`: highest index `≥ i` at which `pat` starts. -/
def rfindFrom (pat : List Char) : List Char → Nat → Option Nat
  | [], i => if pat.isEmpty then some i else none
  | c :: t, i =>
    match rfindFrom pat t (i + 1) with
    | some j => some j
    | none => if prefixOf pat (c :: t) then some i else none

/-- Python's `hay.rfind(pat)`; `none` models the `-1` result. -/
def rfind (hay pat : List Char) : Option Nat :=
  rfindFrom pat hay 0

/-! ## Company-name normalizer (`scrapers/utils.py`) -/

/-- The ordered legal-suffix table `_LEGAL_SUFFIXES`. -/
def LEGAL_SUFFIXES : List String :=
  [ "Spółka z ograniczoną odpowiedzialnością",
    "spółka z ograniczoną odpowiedzialnością",
    "Spółka Akcyjna",
    "spółka akcyjna",
    "Sp. z o. o.",
    "sp. z o. o.",
    "Sp. z o.o.",
    "sp. z o.o.",
    "S.A.",
    "s.a." ]

/-- One iteration of the suffix loop: case-insensitive `rfind` of the
suffix in the current name; if found, remove that occurrence once. -/
def stripSuffixOnce (name : List Char) (suffix : List Char) : List Char :=
  match rfind (name.map pyLower) (suffix.map pyLower) with
  | none => name
  | some idx => name.take idx ++ name.drop (idx + suffix.length)

/-- `normalize_company_name` from `scrapers/utils.py`. -/
def normalize_company_name (raw : String) : String :=
  if raw.isEmpty then raw
  else
    let name := stripList raw.toList
    let name := LEGAL_SUFFIXES.foldl (fun n suf => stripSuffixOnce n suf.toList) name
    String.mk (stripList (rstripCommaList (stripList name)))

/-! ## Scoring data model

A `(conn, company_id)` pair in the scorers becomes the company's
`job_postings` rows (`Posting`, one per row linked to the company) plus
the company's `headcount_poland` column.  `daysAgo` embeds
`post_date` as the whole-day offset from the scoring run's `now`
(`post_date >= date('now', '-N days')` becomes `daysAgo ≤ N`). -/

structure Posting where
  daysAgo : Int
  isRelevant : Bool
  seniorityLevel : Option String
  jobTitle : Option String
  jobDescription : Option String
  location : Option String
deriving DecidableEq, Repr

structure CompanyData where
  headcountPoland : Option Int
  postings : List Posting
deriving DecidableEq, Repr

/-- Rows with `is_relevant = 1`. -/
def relevantPostings (c : CompanyData) : List Posting :=
  c.postings.filter (·.isRelevant)

/-- Rows with `is_relevant = 1 AND post_date >= date('now', '-days days')`. -/
def postingsWithin (c : CompanyData) (days : Int) : List Posting :=
  (relevantPostings c).filter (fun p => p.daysAgo ≤ days)

/-- `COUNT(*)` over a relevance-filtered posting window. -/
def countWindow (c : CompanyData) (days : Int) : Nat :=
  (postingsWithin c days).length

/-! ## Velocity scorer (`scoring/velocity.py`) -/

/-- `calculate_velocity_score`: windowed counts then the top-down
threshold chain. -/
def calculate_velocity_score (c : CompanyData) : Nat :=
  let count_7d := countWindow c 7
  let count_30d := countWindow c 30
  let count_90d := countWindow c 90
  if 3 ≤ count_7d then 40
  else if 5 ≤ count_30d then 35
  else if 3 ≤ count_30d then 30
  else if 2 ≤ count_30d then 20
  else if 2 ≤ count_90d then 10
  else 0

/-! ## Seniority scorer (`scoring/seniority.py`) -/

/-- The non-null `seniority_level` values of the 30-day relevant window
(the rows fetched by the scorer's query). -/
def seniorityRows (c : CompanyData) : List String :=
  (postingsWithin c 30).filterMap (·.seniorityLevel)

/-- `calculate_seniority_score`: three additive sub-awards over the set
of distinct levels, capped at 20. -/
def calculate_seniority_score (c : CompanyData) : Nat :=
  let rows := seniorityRows c
  if rows.isEmpty then 0
  else
    let levels := rows.eraseDups
    let has_director := levels.any (fun l => l == "director" || l == "c-level")
    let has_senior := levels.contains "senior"
    let multiple_levels := 2 ≤ levels.length
    let score := (if has_director then 15 else 0) + (if has_senior then 5 else 0)
      + (if multiple_levels then 5 else 0)
    min score 20

/-! ## ICP scorer (`scoring/icp.py`) -/

def TARGET_TITLES : List String :=
  [ "HR Director", "People & Culture", "Wellbeing", "Employee Experience",
    "CHRO", "CPO", "HR Business Partner", "Culture and Engagement" ]

/-- The headcount component of the ICP scorer (`+15` / `+10` / `+0`). -/
def headcountContribution (h : Option Int) : Nat :=
  match h with
  | none => 0
  | some hc =>
    if 200 ≤ hc && hc ≤ 5000 then 15
    else if 5001 ≤ hc && hc ≤ 10000 then 10
    else 0

/-- One posting's `job_title` contains (case-insensitively) some target
title. -/
def titleMatches (p : Posting) : Bool :=
  let title := (p.jobTitle.getD "").toList.map pyLower
  TARGET_TITLES.any (fun t => containsSub (t.toList.map pyLower) title)

/-- `calculate_icp_score`: headcount band plus `+5` for two or more
title-matching 30-day postings, capped at 20. -/
def calculate_icp_score (c : CompanyData) : Nat :=
  let score := headcountContribution c.headcountPoland
  let matching_count := ((postingsWithin c 30).filter titleMatches).length
  let score := if 2 ≤ matching_count then score + 5 else score
  min score 20

/-! ## Content scorer (`scoring/content.py`) -/

def WELLBEING_KEYWORDS : List String :=
  ["wellbeing", "dobrostan", "mental health", "zdrowie psychiczne"]

def EAP_KEYWORDS : List String :=
  ["eap", "employee assistance", "wsparcie pracowników"]

def CULTURE_KEYWORDS : List String :=
  ["kultura organizacyjna", "employer branding", "employee experience"]

/-- `any(kw.lower() in jd for kw in kws)` on an already-lowercased
description. -/
def containsKeyword (jd : List Char) (kws : List String) : Bool :=
  kws.any (fun kw => containsSub (kw.toList.map pyLower) jd)

/-- One loop iteration of the content scorer: the points contributed by
one posting (`0` for a missing or empty description). -/
def postingContentPoints (p : Posting) : Nat :=
  let jd := (p.jobDescription.getD "").toList.map pyLower
  if jd.isEmpty then 0
  else
    (if containsKeyword jd WELLBEING_KEYWORDS then 5 else 0)
      + (if containsKeyword jd EAP_KEYWORDS then 3 else 0)
      + (if containsKeyword jd CULTURE_KEYWORDS then 2 else 0)

/-- `calculate_content_score`: per-posting points accumulated over the
30-day relevant window, then capped at 10. -/
def calculate_content_score (c : CompanyData) : Nat :=
  min ((postingsWithin c 30).foldl (fun s p => s + postingContentPoints p) 0) 10

/-! ## Recency scorer (`scoring/recency.py`) -/

/-- `MAX(post_date)` over all relevant postings, as the day offset of
the most recent one (`none` models a `NULL` aggregate). -/
def latestDaysAgo (c : CompanyData) : Option Int :=
  ((relevantPostings c).map (·.daysAgo)).min?

/-- `calculate_recency_score`: threshold chain on the age of the most
recent relevant posting. -/
def calculate_recency_score (c : CompanyData) : Nat :=
  match latestDaysAgo c with
  | none => 0
  | some days_ago =>
    if days_ago ≤ 3 then 10
    else if days_ago ≤ 7 then 8
    else if days_ago ≤ 14 then 5
    else if days_ago ≤ 30 then 3
    else 0

/-! ## Composite scorer (`scoring/composite.py`) -/

/-- The `score_result_dict` produced by `calculate_final_score`. -/
structure ScoreResult where
  company_id : Nat
  final_score : Nat
  lead_temperature : String
  velocity : Nat
  seniority : Nat
  icp : Nat
  content : Nat
  recency : Nat
  posting_count_7d : Nat
  posting_count_30d : Nat
  has_director_role : Bool
  has_wellbeing_keywords : Bool
  multi_city_expansion : Bool
deriving DecidableEq, Repr

/-- `_has_director_role`: any 30-day relevant posting with
`seniority_level IN ('director', 'c-level')`. -/
def hasDirectorRoleMeta (c : CompanyData) : Bool :=
  (postingsWithin c 30).any
    (fun p => p.seniorityLevel == some "director" || p.seniorityLevel == some "c-level")

/-- `_has_wellbeing_keywords`: any 30-day relevant posting with a
non-null description containing a wellbeing keyword. -/
def hasWellbeingKeywordsMeta (c : CompanyData) : Bool :=
  ((postingsWithin c 30).filterMap (·.jobDescription)).any
    (fun jd => containsKeyword (jd.toList.map pyLower) WELLBEING_KEYWORDS)

/-- `_multi_city_expansion`: at least two distinct non-null, non-empty
`location` values among 30-day relevant postings. -/
def multiCityExpansionMeta (c : CompanyData) : Bool :=
  2 ≤ (((postingsWithin c 30).filterMap (·.location)).filter (fun l => l ≠ "")).eraseDups.length

/-- `calculate_final_score`: the five dimensions summed, temperature
classified, metadata attached. -/
def calculate_final_score (company_id : Nat) (c : CompanyData) : ScoreResult :=
  let velocity := calculate_velocity_score c
  let seniority := calculate_seniority_score c
  let icp := calculate_icp_score c
  let content := calculate_content_score c
  let recency := calculate_recency_score c
  let final_score := velocity + seniority + icp + content + recency
  let lead_temperature :=
    if 75 ≤ final_score then "hot"
    else if 50 ≤ final_score then "warm"
    else "cold"
  { company_id := company_id
    final_score := final_score
    lead_temperature := lead_temperature
    velocity := velocity
    seniority := seniority
    icp := icp
    content := content
    recency := recency
    posting_count_7d := countWindow c 7
    posting_count_30d := countWindow c 30
    has_director_role := hasDirectorRoleMeta c
    has_wellbeing_keywords := hasWellbeingKeywordsMeta c
    multi_city_expansion := multiCityExpansionMeta c }

/-! ## Job ingestion (`db/manager.py`, `insert_jobs`)

The `job_postings` table is a list of rows.  `schema.sql` is not in the
repository snapshot; the `UNIQUE` constraint on `job_url` that makes
`INSERT OR IGNORE` skip duplicates is modelled from the spec
("job_url is globally unique; re-ingesting an existing job_url is a
no-op").  SQLite `UNIQUE` admits multiple `NULL`s, so only non-null
URLs conflict. -/

/-- An incoming `job_posting_dict` (all values may be absent). -/
structure JobDict where
  source : Option String
  job_url : Option String
  job_title : Option String
  company_name_raw : Option String
  location : Option String
  post_date : Option String
  job_description : Option String
  seniority_level : Option String
  employment_type : Option String
deriving DecidableEq, Repr

/-- A stored `job_postings` row (the columns `insert_jobs` writes). -/
structure JobRow where
  source : Option String
  job_url : Option String
  job_title : Option String
  company_name_raw : Option String
  location : Option String
  post_date : String
  job_description : Option String
  seniority_level : Option String
  employment_type : Option String
deriving DecidableEq, Repr

/-- The row built from one dict: `job.get("post_date") or today`
(Python `or`, so a missing or empty date becomes today's date). -/
def rowOfJob (today : String) (j : JobDict) : JobRow :=
  { source := j.source
    job_url := j.job_url
    job_title := j.job_title
    company_name_raw := j.company_name_raw
    location := j.location
    post_date :=
      match j.post_date with
      | some d => if d = "" then today else d
      | none => today
    job_description := j.job_description
    seniority_level := j.seniority_level
    employment_type := j.employment_type }

/-- Modelled from the spec: the `UNIQUE(job_url)` conflict test of
`INSERT OR IGNORE` (`schema.sql` is absent from the snapshot). -/
def urlConflict (store : List JobRow) (j : JobDict) : Bool :=
  match j.job_url with
  | none => false
  | some u => store.any (fun r => r.job_url == some u)

/-- One `INSERT OR IGNORE` execution. -/
def insertJob (today : String) (store : List JobRow) (j : JobDict) : List JobRow :=
  if urlConflict store j then store else store ++ [rowOfJob today j]

/-- `insert_jobs`: loop the batch through `INSERT OR IGNORE`, then
return `count_after - count_before`. -/
def insert_jobs (today : String) (store : List JobRow) (jobs : List JobDict) :
    List JobRow × Nat :=
  let final := jobs.foldl (insertJob today) store
  (final, final.length - store.length)

/-- The rows holding a given (non-null) URL. -/
def rowsWithUrl (u : String) (store : List JobRow) : List JobRow :=
  store.filter (fun r => r.job_url == some u)

/-- The `job_url`-uniqueness invariant: at most one row per URL. -/
def uniqueUrls (store : List JobRow) : Prop :=
  ∀ u : String, (rowsWithUrl u store).length ≤ 1

/-! ## Company linking pass (`steps/normalize_companies.py`)

`companies.name_normalized` is `UNIQUE` per the spec (`schema.sql` is
absent), so `INSERT OR IGNORE INTO companies (name_normalized)` is
modelled as insert-if-absent; row ids come from an autoincrement
counter.  A `NULL` `company_name_raw` and an empty one behave
identically in this step (both normalize to a falsy value and are
skipped), so raw names are embedded as plain strings. -/

structure CompanyRow where
  id : Nat
  name_normalized : String
deriving DecidableEq, Repr

structure PostingRow where
  id : Nat
  company_name_raw : String
  company_id : Option Nat
deriving DecidableEq, Repr

structure DBState where
  companies : List CompanyRow
  nextCompanyId : Nat
  postings : List PostingRow
deriving DecidableEq, Repr

/-- Phase 1 loop body: normalize one raw name and
`INSERT OR IGNORE` it into `companies`. -/
def insertCompanyIgnore (st : DBState) (raw : String) : DBState :=
  let normalized := normalize_company_name raw
  if normalized = "" then st
  else if st.companies.any (fun cr => cr.name_normalized == normalized) then st
  else
    { st with
      companies := st.companies ++ [⟨st.nextCompanyId, normalized⟩]
      nextCompanyId := st.nextCompanyId + 1 }

/-- Phase 1: `SELECT DISTINCT company_name_raw` then insert-if-absent
for each normalized name (`dedup` models `DISTINCT`, whose row order
SQLite leaves unspecified). -/
def linkStep1 (s : DBState) : DBState :=
  ((s.postings.map (·.company_name_raw)).dedup).foldl insertCompanyIgnore s

/-- Phase 2 loop body: link one still-unlinked posting by looking up
its normalized raw name. -/
def linkPosting (companies : List CompanyRow) (p : PostingRow) : PostingRow :=
  if p.company_id.isSome then p
  else
    let normalized := normalize_company_name p.company_name_raw
    if normalized = "" then p
    else
      match companies.find? (fun cr => cr.name_normalized == normalized) with
      | some cr => { p with company_id := some cr.id }
      | none => p

/-- Phase 2: back-fill `company_id` on every posting that lacks one. -/
def linkStep2 (s : DBState) : DBState :=
  { s with postings := s.postings.map (linkPosting s.companies) }

/-- `run_step` of `steps/normalize_companies.py`. -/
def normalizeCompaniesStep (s : DBState) : DBState :=
  linkStep2 (linkStep1 s)

/-! ## Company upsert (`db/manager.py`, `insert_or_update_company`)

The `companies` columns besides `id` and `name_normalized` are
modelled from the spec's Company attribute list (`schema.sql` is
absent): `linkedin_url`, `headcount_poland`, `industry`,
`is_icp_match`, `is_existing_customer`.  The `**fields` mapping
becomes one optional new value per such column (Python's keyword
binding makes `name_normalized` and `conn` impossible keys). -/

structure FullCompanyRow where
  id : Nat
  name_normalized : String
  linkedin_url : Option String
  headcount_poland : Option Int
  industry : Option String
  is_icp_match : Option Bool
  is_existing_customer : Option Bool
deriving DecidableEq, Repr

/-- The `**fields` mapping: `some v` means the column is named in the
mapping with new value `v` (itself optional, `NULL` being settable). -/
structure FieldsUpdate where
  linkedin_url : Option (Option String)
  headcount_poland : Option (Option Int)
  industry : Option (Option String)
  is_icp_match : Option (Option Bool)
  is_existing_customer : Option (Option Bool)
deriving DecidableEq, Repr

/-- Python `if fields:` — the mapping is empty. -/
def FieldsUpdate.isEmpty (f : FieldsUpdate) : Bool :=
  f.linkedin_url.isNone && f.headcount_poland.isNone && f.industry.isNone
    && f.is_icp_match.isNone && f.is_existing_customer.isNone

/-- `UPDATE companies SET {named columns} ...` applied to one row. -/
def applyFields (f : FieldsUpdate) (r : FullCompanyRow) : FullCompanyRow :=
  { r with
    linkedin_url := f.linkedin_url.getD r.linkedin_url
    headcount_poland := f.headcount_poland.getD r.headcount_poland
    industry := f.industry.getD r.industry
    is_icp_match := f.is_icp_match.getD r.is_icp_match
    is_existing_customer := f.is_existing_customer.getD r.is_existing_customer }

/-- A fresh row: `INSERT` with `name_normalized` plus the named
columns; unnamed columns default to `NULL` (schema modelled from the
spec's nullable attributes). -/
def newCompanyRow (nid : Nat) (name : String) (f : FieldsUpdate) : FullCompanyRow :=
  applyFields f ⟨nid, name, none, none, none, none, none⟩

/-- `insert_or_update_company`: returns the new table, the next
autoincrement id, and the returned company id. -/
def insert_or_update_company (table : List FullCompanyRow) (nextId : Nat)
    (name : String) (f : FieldsUpdate) : (List FullCompanyRow × Nat) × Nat :=
  match table.find? (fun r => r.name_normalized == name) with
  | some existing =>
    let table' :=
      if f.isEmpty then table
      else table.map (fun r => if r.name_normalized == name then applyFields f r else r)
    ((table', nextId), existing.id)
  | none =>
    ((table ++ [newCompanyRow nextId name f], nextId + 1), nextId)

/-! ## Signal persistence (`db/manager.py` `save_signal`,
`steps/score_companies.py` `run_step`)

`save_signal` inserts exactly these `signals` columns; the per-company
loop of `score_companies.run_step` builds the dict it receives.  The
selection query's `posting_count` (relevant postings in the last 30
days) is what the step stores as `posting_count_90d`. -/

structure SignalRow where
  company_id : Nat
  signal_date : String
  signal_type : String
  signal_strength : Nat
  velocity_score : Nat
  posting_count_7d : Nat
  posting_count_30d : Nat
  posting_count_90d : Nat
  has_director_role : Bool
  has_wellbeing_keywords : Bool
  multi_city_expansion : Bool
  final_score : Nat
  lead_temperature : String
deriving DecidableEq, Repr

/-- The signal row persisted for one company by
`score_companies.run_step` (dict construction plus `save_signal`'s
column list). -/
def buildSignal (today : String) (company_id : Nat) (c : CompanyData) : SignalRow :=
  let result := calculate_final_score company_id c
  { company_id := company_id
    signal_date := today
    signal_type := "hiring_velocity"
    signal_strength := result.final_score
    velocity_score := result.velocity
    posting_count_7d := result.posting_count_7d
    posting_count_30d := result.posting_count_30d
    posting_count_90d := countWindow c 30
    has_director_role := result.has_director_role
    has_wellbeing_keywords := result.has_wellbeing_keywords
    multi_city_expansion := result.multi_city_expansion
    final_score := result.final_score
    lead_temperature := result.lead_temperature }

/-! ## Spec-side definitions

Written from the spec's words, to be compared with the definitions
embedded from the source. -/

/-- Spec 4.2 velocity table: "7-day count ≥3 → 40; else 30-day count
≥5 → 35; else 30-day ≥3 → 30; else 30-day ≥2 → 20; else 90-day ≥2 →
10; else 0", first satisfied threshold wins. -/
def velocitySpecTable (count7 count30 count90 : Nat) : Nat :=
  if 3 ≤ count7 then 40
  else if 5 ≤ count30 then 35
  else if 3 ≤ count30 then 30
  else if 2 ≤ count30 then 20
  else if 2 ≤ count90 then 10
  else 0

/-- Spec 4.2 content: one posting's points "5 if it contains any
wellbeing keyword plus 3 if any EAP keyword plus 2 if any culture
keyword" (no emptiness short-circuit). -/
def specPostingPoints (p : Posting) : Nat :=
  let jd := (p.jobDescription.getD "").toList.map pyLower
  (if containsKeyword jd WELLBEING_KEYWORDS then 5 else 0)
    + (if containsKeyword jd EAP_KEYWORDS then 3 else 0)
    + (if containsKeyword jd CULTURE_KEYWORDS then 2 else 0)

/-- Spec 4.2 content: the grand total "summed across all qualifying
postings" of the last 30 days, before the cap. -/
def specContentSum (c : CompanyData) : Nat :=
  ((postingsWithin c 30).map specPostingPoints).sum

/-! ### Seniority sub-awards (for the cap analysis) -/

/-- The set of distinct seniority levels the scorer builds. -/
def seniorityLevelsSet (c : CompanyData) : List String :=
  (seniorityRows c).eraseDups

def subHasDirector (c : CompanyData) : Bool :=
  (seniorityLevelsSet c).any (fun l => l == "director" || l == "c-level")

def subHasSenior (c : CompanyData) : Bool :=
  (seniorityLevelsSet c).contains "senior"

def subMultipleLevels (c : CompanyData) : Bool :=
  2 ≤ (seniorityLevelsSet c).length

/-- The uncapped sum of the three seniority sub-awards. -/
def seniorityAwardSum (c : CompanyData) : Nat :=
  (if subHasDirector c then 15 else 0) + (if subHasSenior c then 5 else 0)
    + (if subMultipleLevels c then 5 else 0)

/-! ### Normalizer residual predicates (for the idempotence analysis) -/

/-- Some legal suffix still occurs (case-insensitively) in `s`. -/
def hasLegalSuffix (s : String) : Bool :=
  LEGAL_SUFFIXES.any (fun suf => (rfind (s.toList.map pyLower) (suf.toList.map pyLower)).isSome)

/-- `s` ends with a comma. -/
def endsWithComma (s : String) : Bool :=
  match s.toList.getLast? with
  | some c => c == ','
  | none => false

/-! ### Concrete companies used as counterexamples and witnesses -/

/-- A company with one director and one senior posting in the 30-day
window: all three seniority sub-awards fire. -/
def seniorityBothCompany : CompanyData :=
  { headcountPoland := none
    postings :=
      [ { daysAgo := 2, isRelevant := true, seniorityLevel := some "director"
          jobTitle := none, jobDescription := none, location := none },
        { daysAgo := 3, isRelevant := true, seniorityLevel := some "senior"
          jobTitle := none, jobDescription := none, location := none } ] }

/-- A company with two relevant postings inside 30 days and one more at
60 days: its 90-day count (3) differs from its 30-day count (2). -/
def staleTailCompany : CompanyData :=
  { headcountPoland := some 450
    postings :=
      [ { daysAgo := 5, isRelevant := true, seniorityLevel := none
          jobTitle := none, jobDescription := none, location := none },
        { daysAgo := 10, isRelevant := true, seniorityLevel := none
          jobTitle := none, jobDescription := none, location := none },
        { daysAgo := 60, isRelevant := true, seniorityLevel := none
          jobTitle := none, jobDescription := none, location := none } ] }

/-- A company with no relevant postings (one excluded posting) and a
headcount in the 200–5000 band. -/
def noRelevantCompany : CompanyData :=
  { headcountPoland := some 450
    postings :=
      [ { daysAgo := 4, isRelevant := false, seniorityLevel := some "director"
          jobTitle := some "HR Director", jobDescription := some "wellbeing"
          location := some "Warszawa" } ] }

/-! ## Dimension bounds -/

theorem velocity_le_40 (c : CompanyData) : calculate_velocity_score c ≤ 40 := by
  unfold calculate_velocity_score
  dsimp only
  split_ifs <;> omega

theorem seniority_le_20 (c : CompanyData) : calculate_seniority_score c ≤ 20 := by
  unfold calculate_seniority_score
  dsimp only
  split_ifs <;> omega

theorem icp_le_20 (c : CompanyData) : calculate_icp_score c ≤ 20 :=
  Nat.min_le_right _ _

theorem content_le_10 (c : CompanyData) : calculate_content_score c ≤ 10 :=
  Nat.min_le_right _ _

theorem recency_le_10 (c : CompanyData) : calculate_recency_score c ≤ 10 := by
  unfold calculate_recency_score
  cases latestDaysAgo c with
  | none => decide
  | some d => dsimp only; split_ifs <;> omega

/-! ## Claim C1 -/

/-- C1: for every company, the composite result satisfies
`final_score = velocity + seniority + icp + content + recency`,
`0 ≤ final_score ≤ 100`, and the temperature is `"hot"` iff
`final_score ≥ 75`, `"warm"` iff `50 ≤ final_score < 75`, and `"cold"`
iff `final_score < 50`. -/
theorem C1_composite_invariants (company_id : Nat) (c : CompanyData) :
    (calculate_final_score company_id c).final_score
        = (calculate_final_score company_id c).velocity
          + (calculate_final_score company_id c).seniority
          + (calculate_final_score company_id c).icp
          + (calculate_final_score company_id c).content
          + (calculate_final_score company_id c).recency
    ∧ 0 ≤ (calculate_final_score company_id c).final_score
    ∧ (calculate_final_score company_id c).final_score ≤ 100
    ∧ ((calculate_final_score company_id c).lead_temperature = "hot"
        ↔ 75 ≤ (calculate_final_score company_id c).final_score)
    ∧ ((calculate_final_score company_id c).lead_temperature = "warm"
        ↔ 50 ≤ (calculate_final_score company_id c).final_score
          ∧ (calculate_final_score company_id c).final_score < 75)
    ∧ ((calculate_final_score company_id c).lead_temperature = "cold"
        ↔ (calculate_final_score company_id c).final_score < 50) := by
  have hv := velocity_le_40 c
  have hs := seniority_le_20 c
  have hi := icp_le_20 c
  have hco := content_le_10 c
  have hr := recency_le_10 c
  unfold calculate_final_score
  dsimp only
  refine ⟨rfl, Nat.zero_le _, by omega, ?_, ?_, ?_⟩
  · split_ifs with h1 h2
    · exact iff_of_true rfl h1
    · exact iff_of_false (by decide) (by omega)
    · exact iff_of_false (by decide) (by omega)
  · split_ifs with h1 h2
    · exact iff_of_false (by decide) (by omega)
    · exact iff_of_true rfl ⟨h2, by omega⟩
    · exact iff_of_false (by decide) (by omega)
  · split_ifs with h1 h2
    · exact iff_of_false (by decide) (by omega)
    · exact iff_of_false (by decide) (by omega)
    · exact iff_of_true rfl (by omega)

/-! ## Claim C2 -/

/-- C2: the velocity score equals the spec's top-down threshold table
applied to the windowed counts of relevant postings, and is always one
single threshold value (never a sum). -/
theorem C2_velocity_first_match (c : CompanyData) :
    calculate_velocity_score c
        = velocitySpecTable (countWindow c 7) (countWindow c 30) (countWindow c 90)
    ∧ (calculate_velocity_score c = 40 ∨ calculate_velocity_score c = 35
        ∨ calculate_velocity_score c = 30 ∨ calculate_velocity_score c = 20
        ∨ calculate_velocity_score c = 10 ∨ calculate_velocity_score c = 0) := by
  refine ⟨rfl, ?_⟩
  unfold calculate_velocity_score
  dsimp only
  split_ifs <;> simp

/-! ## Claim C3 -/

theorem foldl_add_eq_sum {α : Type} (f : α → Nat) (l : List α) (s : Nat) :
    l.foldl (fun a p => a + f p) s = s + (l.map f).sum := by
  induction l generalizing s with
  | nil => simp
  | cons a t ih =>
    simp only [List.foldl_cons, List.map_cons, List.sum_cons, ih]
    omega

theorem postingContentPoints_eq_spec (p : Posting) :
    postingContentPoints p = specPostingPoints p := by
  unfold postingContentPoints specPostingPoints
  dsimp only
  by_cases h : List.map pyLower (p.jobDescription.getD "").toList = []
  · rw [h]
    decide
  · rw [if_neg (by simpa using h)]

/-- C3: the content score is `min 10 S` where `S` sums, per relevant
30-day posting, 5 for a wellbeing keyword plus 3 for an EAP keyword
plus 2 for a culture keyword; the result never exceeds 10. -/
theorem C3_content_min_cap (c : CompanyData) :
    calculate_content_score c = min 10 (specContentSum c)
    ∧ calculate_content_score c ≤ 10 := by
  refine ⟨?_, content_le_10 c⟩
  unfold calculate_content_score specContentSum
  rw [foldl_add_eq_sum postingContentPoints, Nat.zero_add, Nat.min_comm]
  congr 1
  exact congrArg List.sum (List.map_congr_left fun p _ => postingContentPoints_eq_spec p)

/-! ## Claim C9 -/

theorem headcountContribution_le_15 (h : Option Int) : headcountContribution h ≤ 15 := by
  unfold headcountContribution
  cases h with
  | none => decide
  | some hc => dsimp only; split_ifs <;> omega

/-- C9: a company with zero relevant postings gets 0 from the
velocity, seniority, content and recency scorers, and exactly the
headcount-band contribution from the ICP scorer. -/
theorem C9_zero_postings (c : CompanyData) (h : relevantPostings c = []) :
    calculate_velocity_score c = 0
    ∧ calculate_seniority_score c = 0
    ∧ calculate_content_score c = 0
    ∧ calculate_recency_score c = 0
    ∧ calculate_icp_score c = headcountContribution c.headcountPoland := by
  have hw : ∀ d : Int, postingsWithin c d = [] := by
    intro d; unfold postingsWithin; rw [h]; rfl
  refine ⟨?_, ?_, ?_, ?_, ?_⟩
  · unfold calculate_velocity_score countWindow
    rw [hw, hw, hw]
    rfl
  · unfold calculate_seniority_score seniorityRows
    rw [hw]
    rfl
  · unfold calculate_content_score
    rw [hw]
    rfl
  · unfold calculate_recency_score latestDaysAgo
    rw [h]
    rfl
  · unfold calculate_icp_score
    rw [hw]
    dsimp only
    have hb := headcountContribution_le_15 c.headcountPoland
    simp only [List.filter_nil, List.length_nil]
    norm_num
    omega
/-- Witness for C9 at a concrete company with one excluded posting and
headcount 450. -/
theorem C9_zero_postings_witness :
    calculate_velocity_score noRelevantCompany = 0
    ∧ calculate_seniority_score noRelevantCompany = 0
    ∧ calculate_content_score noRelevantCompany = 0
    ∧ calculate_recency_score noRelevantCompany = 0
    ∧ calculate_icp_score noRelevantCompany
        = headcountContribution noRelevantCompany.headcountPoland :=
  C9_zero_postings noRelevantCompany (by decide)

/-! ## Claim C4 (seniority cap analysis) -/

theorem seniority_score_eq_min (c : CompanyData) :
    calculate_seniority_score c = min (seniorityAwardSum c) 20 := by
  unfold calculate_seniority_score seniorityAwardSum subHasDirector subHasSenior
    subMultipleLevels seniorityLevelsSet
  dsimp only
  by_cases h : (seniorityRows c).isEmpty = true
  · have hr : seniorityRows c = [] := by simpa using h
    rw [if_pos h, hr]
    decide
  · rw [if_neg h]
    simp only [decide_eq_true_eq]

theorem two_le_length_of_mem_ne {α : Type} {l : List α} {a b : α}
    (ha : a ∈ l) (hb : b ∈ l) (hab : a ≠ b) : 2 ≤ l.length := by
  cases l with
  | nil => cases ha
  | cons x t =>
    cases t with
    | nil =>
      simp only [List.mem_singleton] at ha hb
      exact absurd (ha.trans hb.symm) hab
    | cons y u =>
      simp only [List.length_cons]
      omega

theorem multiple_of_director_senior (c : CompanyData)
    (hd : subHasDirector c = true) (hs : subHasSenior c = true) :
    subMultipleLevels c = true := by
  unfold subHasDirector at hd
  unfold subHasSenior at hs
  unfold subMultipleLevels
  rw [List.any_eq_true] at hd
  obtain ⟨l, hl, hor⟩ := hd
  have hsen : "senior" ∈ seniorityLevelsSet c := by simpa using hs
  have hne : l ≠ "senior" := by
    rcases (by simpa using hor : l = "director" ∨ l = "c-level") with h | h <;> simp [h]
  have hlen := two_le_length_of_mem_ne hl hsen hne
  simpa using hlen

/-- C4 counterexample: a company with one director and one senior
posting in the 30-day window has uncapped sub-award sum 25, yet the
scorer returns 20 — the defensive cap is not a no-op and the returned
score differs from the uncapped sum. -/
theorem C4_seniority_cap_counterexample :
    seniorityAwardSum seniorityBothCompany = 25
    ∧ calculate_seniority_score seniorityBothCompany = 20
    ∧ calculate_seniority_score seniorityBothCompany
        ≠ seniorityAwardSum seniorityBothCompany := by
  decide

/-- C4 amended: the seniority score is `min(sum, 20)` over the three
sub-awards; the sum is at most 25 and exceeds 20 exactly when both a
director/c-level and a senior posting are present (then it is 25 and
the cap bites); otherwise the cap is a no-op. -/
theorem C4_seniority_cap_amended (c : CompanyData) :
    calculate_seniority_score c = min (seniorityAwardSum c) 20
    ∧ seniorityAwardSum c ≤ 25
    ∧ (20 < seniorityAwardSum c
        ↔ subHasDirector c = true ∧ subHasSenior c = true) := by
  refine ⟨seniority_score_eq_min c, ?_, ?_, ?_⟩
  · unfold seniorityAwardSum
    split_ifs <;> omega
  · intro hgt
    unfold seniorityAwardSum at hgt
    by_cases hd : subHasDirector c = true
    · by_cases hs : subHasSenior c = true
      · exact ⟨hd, hs⟩
      · rw [if_pos hd, if_neg hs] at hgt
        split_ifs at hgt <;> omega
    · rw [if_neg hd] at hgt
      split_ifs at hgt <;> omega
  · rintro ⟨hd, hs⟩
    have hm := multiple_of_director_senior c hd hs
    unfold seniorityAwardSum
    rw [if_pos hd, if_pos hs, if_pos hm]
    omega

/-! ## Claim C6 (normalizer idempotence analysis) -/

theorem dropWhile_head_false {α : Type} (p : α → Bool) (l : List α) {a : α} {t : List α}
    (h : l.dropWhile p = a :: t) : p a = false := by
  induction l with
  | nil => simp at h
  | cons x xs ih =>
    rw [List.dropWhile_cons] at h
    by_cases hx : p x = true
    · rw [if_pos hx] at h
      exact ih h
    · rw [if_neg hx] at h
      cases h
      simpa using hx

theorem dropWhile_eq_self_of_head {α : Type} (p : α → Bool) (l : List α)
    (h : ∀ a t, l = a :: t → p a = false) : l.dropWhile p = l := by
  cases l with
  | nil => rfl
  | cons x xs =>
    have hx := h x xs rfl
    rw [List.dropWhile_cons, if_neg (by simp [hx])]

theorem prefix_head {α : Type} {l₁ l₂ : List α} {a : α} {t : List α}
    (h : l₁ <+: l₂) (he : l₁ = a :: t) : ∃ t', l₂ = a :: t' := by
  obtain ⟨u, hu⟩ := h
  subst he
  exact ⟨t ++ u, by simpa using hu.symm⟩

theorem stripList_no_leading (l : List Char) :
    (stripList l).dropWhile pyIsSpace = stripList l := by
  apply dropWhile_eq_self_of_head
  intro a t h
  have hpre : stripList l <+: l.dropWhile pyIsSpace := by
    obtain ⟨u, hu⟩ := List.dropWhile_suffix (l := (l.dropWhile pyIsSpace).reverse) pyIsSpace
    refine ⟨u.reverse, ?_⟩
    have hrev := congrArg List.reverse hu
    simpa [stripList] using hrev
  obtain ⟨t', ht'⟩ := prefix_head hpre h
  exact dropWhile_head_false pyIsSpace l ht'

theorem stripList_idempotent (l : List Char) : stripList (stripList l) = stripList l := by
  calc stripList (stripList l)
      = (((stripList l).dropWhile pyIsSpace).reverse.dropWhile pyIsSpace).reverse := rfl
    _ = ((stripList l).reverse.dropWhile pyIsSpace).reverse := by
        rw [stripList_no_leading l]
    _ = ((((l.dropWhile pyIsSpace).reverse.dropWhile pyIsSpace).reverse.reverse).dropWhile
          pyIsSpace).reverse := rfl
    _ = (((l.dropWhile pyIsSpace).reverse.dropWhile pyIsSpace).dropWhile pyIsSpace).reverse := by
        rw [List.reverse_reverse]
    _ = ((l.dropWhile pyIsSpace).reverse.dropWhile pyIsSpace).reverse := by
        rw [List.dropWhile_idempotent]
    _ = stripList l := rfl

theorem rstripCommaList_eq_self (l : List Char)
    (h : ∀ a t, l.reverse = a :: t → (a == ',') = false) :
    rstripCommaList l = l := by
  unfold rstripCommaList
  rw [dropWhile_eq_self_of_head _ _ h, List.reverse_reverse]

theorem toList_mk (l : List Char) : (String.mk l).toList = l := rfl

theorem mk_toList (s : String) : String.mk s.toList = s := rfl

theorem isEmpty_eq_empty (s : String) (h : s.isEmpty = true) : s = "" := by
  cases s with
  | mk data =>
    cases data with
    | nil => rfl
    | cons a t =>
      exfalso
      rw [String.isEmpty] at h
      simp only [beq_iff_eq, String.ext_iff] at h
      simp [String.endPos, String.utf8ByteSize, String.Pos.ext_iff] at h
      have := Char.utf8Size_pos a
      omega

theorem normalize_of_isEmpty (s : String) (hs : s.isEmpty = true) :
    normalize_company_name s = s := by
  unfold normalize_company_name
  rw [if_pos hs]

theorem normalize_eq_of_not_empty (x : String) (hx : ¬x.isEmpty = true) :
    normalize_company_name x
      = String.mk (stripList (rstripCommaList (stripList
          (LEGAL_SUFFIXES.foldl (fun n suf => stripSuffixOnce n suf.toList)
            (stripList x.toList))))) := by
  unfold normalize_company_name
  rw [if_neg hx]

theorem normalize_toList_stripped (x : String) :
    stripList (normalize_company_name x).toList = (normalize_company_name x).toList := by
  by_cases hx : x.isEmpty = true
  · rw [normalize_of_isEmpty x hx, isEmpty_eq_empty x hx]
    rfl
  · rw [normalize_eq_of_not_empty x hx, toList_mk]
    exact stripList_idempotent _

theorem normalize_idempotent_of_residual (x : String)
    (hsuf : hasLegalSuffix (normalize_company_name x) = false)
    (hcomma : endsWithComma (normalize_company_name x) = false) :
    normalize_company_name (normalize_company_name x)
      = normalize_company_name x := by
  by_cases hyempty : (normalize_company_name x).isEmpty = true
  · exact normalize_of_isEmpty _ hyempty
  · have hstripped := normalize_toList_stripped x
    have hloop : LEGAL_SUFFIXES.foldl (fun n suf => stripSuffixOnce n suf.toList)
        (normalize_company_name x).toList = (normalize_company_name x).toList := by
      have hall : ∀ suf ∈ LEGAL_SUFFIXES,
          stripSuffixOnce (normalize_company_name x).toList suf.toList
            = (normalize_company_name x).toList := by
        intro suf hsufmem
        have hfalse : (rfind ((normalize_company_name x).toList.map pyLower)
            (suf.toList.map pyLower)).isSome = false := by
          unfold hasLegalSuffix at hsuf
          rw [List.any_eq_false] at hsuf
          simpa using hsuf suf hsufmem
        have hnone : rfind ((normalize_company_name x).toList.map pyLower)
            (suf.toList.map pyLower) = none := by
          cases hr : rfind ((normalize_company_name x).toList.map pyLower)
              (suf.toList.map pyLower) with
          | none => rfl
          | some i => rw [hr] at hfalse; simp at hfalse
        unfold stripSuffixOnce
        rw [hnone]
      have hgen : ∀ (L : List String),
          (∀ suf ∈ L, stripSuffixOnce (normalize_company_name x).toList suf.toList
            = (normalize_company_name x).toList) →
          L.foldl (fun n suf => stripSuffixOnce n suf.toList)
            (normalize_company_name x).toList = (normalize_company_name x).toList := by
        intro L
        induction L with
        | nil => intro _; rfl
        | cons s t ih =>
          intro hL
          rw [List.foldl_cons, hL s (List.mem_cons_self s t)]
          exact ih fun a ha => hL a (List.mem_cons_of_mem s ha)
      exact hgen LEGAL_SUFFIXES hall
    have hrstrip : rstripCommaList (normalize_company_name x).toList
        = (normalize_company_name x).toList := by
      apply rstripCommaList_eq_self
      intro a t hrev
      have hlast : (normalize_company_name x).toList.getLast? = some a := by
        rw [← List.head?_reverse, hrev]
        rfl
      unfold endsWithComma at hcomma
      rw [hlast] at hcomma
      simpa using hcomma
    rw [normalize_eq_of_not_empty _ hyempty]
    rw [hstripped, hloop, hstripped, hrstrip, hstripped]
    exact mk_toList _

/-- C6 counterexample: the normalizer is not idempotent —
`normalize("Foo, ,")` returns `"Foo,"`, and normalizing that result
again strips the exposed trailing comma, giving `"Foo"`. -/
theorem C6_normalizer_counterexample :
    normalize_company_name "Foo, ," = "Foo,"
    ∧ normalize_company_name (normalize_company_name "Foo, ,") = "Foo"
    ∧ normalize_company_name (normalize_company_name "Foo, ,")
        ≠ normalize_company_name "Foo, ," := by
  decide

/-- C6 amended: the three worked examples hold, and the normalizer is
idempotent on every input whose normalized form contains no residual
legal suffix and does not end with a comma (which covers the worked
examples); full idempotence fails. -/
theorem C6_normalizer_amended :
    normalize_company_name "Samsung Electronics Polska Sp. z o.o."
        = "Samsung Electronics Polska"
    ∧ normalize_company_name "Allegro S.A." = "Allegro"
    ∧ normalize_company_name "" = ""
    ∧ (∀ x : String, hasLegalSuffix (normalize_company_name x) = false →
        endsWithComma (normalize_company_name x) = false →
        normalize_company_name (normalize_company_name x) = normalize_company_name x) :=
  ⟨by decide, by decide, by decide, normalize_idempotent_of_residual⟩

/-- Witness for the amended C6: the guarded idempotence applied at the
concrete input `"Allegro S.A."`. -/
theorem C6_normalizer_amended_witness :
    normalize_company_name (normalize_company_name "Allegro S.A.")
      = normalize_company_name "Allegro S.A." :=
  C6_normalizer_amended.2.2.2 "Allegro S.A." (by decide) (by decide)

/-! ## Claim C5 (signal persistence) -/

/-- C5 counterexample: for a company with two relevant postings inside
30 days and a third at 60 days, the persisted `posting_count_90d` is 2
(the 30-day selection count) while the actual 90-day count is 3. -/
theorem C5_signal_90d_counterexample :
    (buildSignal "2026-10-12" 1 staleTailCompany).posting_count_90d = 2
    ∧ countWindow staleTailCompany 90 = 3
    ∧ (buildSignal "2026-10-12" 1 staleTailCompany).posting_count_90d
        ≠ countWindow staleTailCompany 90 := by
  decide

/-- C5 amended: the persisted signal row carries `company_id`,
`final_score`, `lead_temperature`, the velocity score, the 7/30-day
posting counts, the three boolean flags, `signal_date`, `signal_type`
and `signal_strength`; the seniority/icp/content/recency dimension
scores are not persisted, and `posting_count_90d` stores the company's
30-day relevant-posting count, not the 90-day count. -/
theorem C5_signal_fields_amended (today : String) (company_id : Nat) (c : CompanyData) :
    (buildSignal today company_id c).company_id = company_id
    ∧ (buildSignal today company_id c).final_score
        = (calculate_final_score company_id c).final_score
    ∧ (buildSignal today company_id c).lead_temperature
        = (calculate_final_score company_id c).lead_temperature
    ∧ (buildSignal today company_id c).velocity_score
        = (calculate_final_score company_id c).velocity
    ∧ (buildSignal today company_id c).posting_count_7d
        = (calculate_final_score company_id c).posting_count_7d
    ∧ (buildSignal today company_id c).posting_count_30d
        = (calculate_final_score company_id c).posting_count_30d
    ∧ (buildSignal today company_id c).has_director_role
        = (calculate_final_score company_id c).has_director_role
    ∧ (buildSignal today company_id c).has_wellbeing_keywords
        = (calculate_final_score company_id c).has_wellbeing_keywords
    ∧ (buildSignal today company_id c).multi_city_expansion
        = (calculate_final_score company_id c).multi_city_expansion
    ∧ (buildSignal today company_id c).signal_date = today
    ∧ (buildSignal today company_id c).signal_type = "hiring_velocity"
    ∧ (buildSignal today company_id c).signal_strength
        = (calculate_final_score company_id c).final_score
    ∧ (buildSignal today company_id c).posting_count_90d = countWindow c 30 :=
  ⟨rfl, rfl, rfl, rfl, rfl, rfl, rfl, rfl, rfl, rfl, rfl, rfl, rfl⟩

/-! ## Claim C7 (idempotent job ingestion) -/

theorem insertJob_mem {today : String} {store : List JobRow} {j : JobDict} {r : JobRow}
    (hr : r ∈ store) : r ∈ insertJob today store j := by
  unfold insertJob
  split
  · exact hr
  · exact List.mem_append_left _ hr

theorem urlConflict_of_mem {store : List JobRow} {j : JobDict} {u : String}
    (hj : j.job_url = some u) (hmem : ∃ r ∈ store, r.job_url = some u) :
    urlConflict store j = true := by
  unfold urlConflict
  rw [hj]
  rw [List.any_eq_true]
  obtain ⟨r, hr, hru⟩ := hmem
  exact ⟨r, hr, by simp [hru]⟩

theorem insertJob_rowsWithUrl (today u : String) (store : List JobRow) (j : JobDict)
    (hmem : ∃ r ∈ store, r.job_url = some u) :
    rowsWithUrl u (insertJob today store j) = rowsWithUrl u store := by
  unfold insertJob
  by_cases hconf : urlConflict store j = true
  · rw [if_pos hconf]
  · rw [if_neg hconf]
    have hne : j.job_url ≠ some u := fun he => hconf (urlConflict_of_mem he hmem)
    have hrow : ((rowOfJob today j).job_url == some u) = false := by
      have hproj : (rowOfJob today j).job_url = j.job_url := rfl
      rw [hproj]
      exact beq_eq_false_iff_ne.mpr hne
    simp [rowsWithUrl, List.filter_append, List.filter, hrow]

theorem foldl_rowsWithUrl (today u : String) (jobs : List JobDict) :
    ∀ store : List JobRow, (∃ r ∈ store, r.job_url = some u) →
      rowsWithUrl u (jobs.foldl (insertJob today) store) = rowsWithUrl u store := by
  induction jobs with
  | nil => intro store _; rfl
  | cons j rest ih =>
    intro store h
    rw [List.foldl_cons]
    have hpres : ∃ r ∈ insertJob today store j, r.job_url = some u := by
      obtain ⟨r, hr, hru⟩ := h
      exact ⟨r, insertJob_mem hr, hru⟩
    rw [ih _ hpres, insertJob_rowsWithUrl today u store j h]

theorem foldl_skip_dup (today u : String) (jobs : List JobDict) :
    ∀ store : List JobRow, (∃ r ∈ store, r.job_url = some u) →
      jobs.foldl (insertJob today) store
        = (jobs.filter (fun j => j.job_url ≠ some u)).foldl (insertJob today) store := by
  induction jobs with
  | nil => intro store _; rfl
  | cons j rest ih =>
    intro store h
    by_cases hj : j.job_url = some u
    · have hskip : insertJob today store j = store := by
        unfold insertJob
        rw [if_pos (urlConflict_of_mem hj h)]
      have hfilter : (j :: rest).filter (fun j => j.job_url ≠ some u)
          = rest.filter (fun j => j.job_url ≠ some u) := by
        simp [List.filter_cons, hj]
      rw [List.foldl_cons, hskip, hfilter]
      exact ih store h
    · have hfilter : (j :: rest).filter (fun j => j.job_url ≠ some u)
          = j :: rest.filter (fun j => j.job_url ≠ some u) := by
        simp [List.filter_cons, hj]
      rw [List.foldl_cons, hfilter, List.foldl_cons]
      have hpres : ∃ r ∈ insertJob today store j, r.job_url = some u := by
        obtain ⟨r, hr, hru⟩ := h
        exact ⟨r, insertJob_mem hr, hru⟩
      exact ih _ hpres

theorem insertJob_unique (today : String) (store : List JobRow) (j : JobDict)
    (h : uniqueUrls store) : uniqueUrls (insertJob today store j) := by
  unfold insertJob
  by_cases hconf : urlConflict store j = true
  · rw [if_pos hconf]
    exact h
  · rw [if_neg hconf]
    intro u'
    rw [rowsWithUrl, List.filter_append]
    cases hrow : ((rowOfJob today j).job_url == some u') with
    | false =>
      simp only [List.filter, hrow, List.append_nil]
      exact h u'
    | true =>
      have hjurl : j.job_url = some u' := by
        have hproj : (rowOfJob today j).job_url = j.job_url := rfl
        rw [hproj] at hrow
        simpa using hrow
      have hnone : store.any (fun r => r.job_url == some u') = false := by
        unfold urlConflict at hconf
        rw [hjurl] at hconf
        simpa using hconf
      have hempty : List.filter (fun r => r.job_url == some u') store = [] := by
        rw [List.filter_eq_nil_iff]
        intro a ha
        rw [List.any_eq_false] at hnone
        simp [hnone a ha]
      simp [hempty, List.filter, hrow]

theorem foldl_unique (today : String) (jobs : List JobDict) :
    ∀ store : List JobRow, uniqueUrls store →
      uniqueUrls (jobs.foldl (insertJob today) store) := by
  induction jobs with
  | nil => intro store h; exact h
  | cons j rest ih =>
    intro store h
    rw [List.foldl_cons]
    exact ih _ (insertJob_unique today store j h)

/-- C7: with a `job_url` already present, any further batch leaves the
rows holding that URL untouched (exactly one row when the uniqueness
invariant holds), contributes nothing for that URL to the returned
inserted-count (the whole call equals the call on the batch with that
URL's jobs removed), and insertion preserves `job_url` uniqueness. -/
theorem C7_insert_jobs_idempotent (today u : String) (store : List JobRow)
    (jobs : List JobDict) (hmem : ∃ r ∈ store, r.job_url = some u) :
    rowsWithUrl u (insert_jobs today store jobs).1 = rowsWithUrl u store
    ∧ insert_jobs today store jobs
        = insert_jobs today store (jobs.filter (fun j => j.job_url ≠ some u))
    ∧ (uniqueUrls store → uniqueUrls (insert_jobs today store jobs).1)
    ∧ (uniqueUrls store → (rowsWithUrl u (insert_jobs today store jobs).1).length = 1) := by
  refine ⟨?_, ?_, ?_, ?_⟩
  · exact foldl_rowsWithUrl today u jobs store hmem
  · unfold insert_jobs
    rw [foldl_skip_dup today u jobs store hmem]
  · intro hu
    exact foldl_unique today jobs store hu
  · intro hu
    have h1 : rowsWithUrl u (insert_jobs today store jobs).1 = rowsWithUrl u store :=
      foldl_rowsWithUrl today u jobs store hmem
    rw [h1]
    have hle := hu u
    obtain ⟨r, hr, hru⟩ := hmem
    have hmemf : r ∈ rowsWithUrl u store := by
      rw [rowsWithUrl, List.mem_filter]
      exact ⟨hr, by simp [hru]⟩
    have hge : 1 ≤ (rowsWithUrl u store).length := List.length_pos_of_mem hmemf
    omega

/-- A stored row and an incoming duplicate used as the C7 witness. -/
def jobRowA : JobRow :=
  { source := some "pracuj", job_url := some "https://pracuj.pl/oferta/1"
    job_title := some "HR Manager", company_name_raw := some "Acme"
    location := none, post_date := "2026-10-01", job_description := none
    seniority_level := none, employment_type := none }

def jobDictA : JobDict :=
  { source := some "pracuj", job_url := some "https://pracuj.pl/oferta/1"
    job_title := some "HR Director", company_name_raw := some "Acme"
    location := none, post_date := some "2026-10-05", job_description := none
    seniority_level := none, employment_type := none }

/-- Witness for C7 at a one-row store and a duplicate-URL batch. -/
theorem C7_insert_jobs_idempotent_witness :
    rowsWithUrl "https://pracuj.pl/oferta/1"
        (insert_jobs "2026-10-12" [jobRowA] [jobDictA]).1
      = rowsWithUrl "https://pracuj.pl/oferta/1" [jobRowA]
    ∧ insert_jobs "2026-10-12" [jobRowA] [jobDictA]
        = insert_jobs "2026-10-12" [jobRowA]
            ([jobDictA].filter (fun j => j.job_url ≠ some "https://pracuj.pl/oferta/1"))
    ∧ (uniqueUrls [jobRowA] →
        uniqueUrls (insert_jobs "2026-10-12" [jobRowA] [jobDictA]).1)
    ∧ (uniqueUrls [jobRowA] →
        (rowsWithUrl "https://pracuj.pl/oferta/1"
          (insert_jobs "2026-10-12" [jobRowA] [jobDictA]).1).length = 1) :=
  C7_insert_jobs_idempotent "2026-10-12" "https://pracuj.pl/oferta/1" [jobRowA] [jobDictA]
    (by decide)

/-! ## Claim C8 (linking pass idempotence) -/

theorem insertCompanyIgnore_postings (st : DBState) (raw : String) :
    (insertCompanyIgnore st raw).postings = st.postings := by
  unfold insertCompanyIgnore
  dsimp only
  split_ifs <;> rfl

theorem foldl_insert_postings (raws : List String) :
    ∀ st : DBState, (raws.foldl insertCompanyIgnore st).postings = st.postings := by
  induction raws with
  | nil => intro st; rfl
  | cons a t ih =>
    intro st
    rw [List.foldl_cons, ih, insertCompanyIgnore_postings]

theorem linkStep1_postings (s : DBState) : (linkStep1 s).postings = s.postings :=
  foldl_insert_postings _ s

theorem insertCompanyIgnore_subset {st : DBState} {raw : String} {cr : CompanyRow}
    (h : cr ∈ st.companies) : cr ∈ (insertCompanyIgnore st raw).companies := by
  unfold insertCompanyIgnore
  dsimp only
  split_ifs
  · exact h
  · exact h
  · exact List.mem_append_left _ h

theorem insertCompanyIgnore_any_mono (st : DBState) (raw : String) (p : CompanyRow → Bool)
    (h : st.companies.any p = true) : (insertCompanyIgnore st raw).companies.any p = true := by
  rw [List.any_eq_true] at h
  obtain ⟨cr, hm, hp⟩ := h
  rw [List.any_eq_true]
  exact ⟨cr, insertCompanyIgnore_subset hm, hp⟩

theorem foldl_insert_any_mono (raws : List String) (p : CompanyRow → Bool) :
    ∀ st : DBState, st.companies.any p = true →
      ((raws.foldl insertCompanyIgnore st).companies.any p = true) := by
  induction raws with
  | nil => intro st h; exact h
  | cons a t ih =>
    intro st h
    rw [List.foldl_cons]
    exact ih _ (insertCompanyIgnore_any_mono st a p h)

theorem insertCompanyIgnore_mem (st : DBState) (raw : String)
    (hne : normalize_company_name raw ≠ "") :
    (insertCompanyIgnore st raw).companies.any
      (fun cr => cr.name_normalized == normalize_company_name raw) = true := by
  unfold insertCompanyIgnore
  dsimp only
  rw [if_neg hne]
  by_cases hany : st.companies.any
      (fun cr => cr.name_normalized == normalize_company_name raw) = true
  · rw [if_pos hany]
    exact hany
  · rw [if_neg hany]
    dsimp only
    rw [List.any_eq_true]
    exact ⟨⟨st.nextCompanyId, normalize_company_name raw⟩,
      List.mem_append_right _ (List.mem_singleton_self _), by simp⟩

theorem foldl_insert_complete (raws : List String) :
    ∀ (st : DBState) (raw : String), raw ∈ raws → normalize_company_name raw ≠ "" →
      (raws.foldl insertCompanyIgnore st).companies.any
        (fun cr => cr.name_normalized == normalize_company_name raw) = true := by
  induction raws with
  | nil => intro st raw h; cases h
  | cons a t ih =>
    intro st raw hmem hne
    rw [List.foldl_cons]
    rcases List.mem_cons.mp hmem with he | ht
    · subst he
      exact foldl_insert_any_mono t _ _ (insertCompanyIgnore_mem st raw hne)
    · exact ih _ raw ht hne

theorem insertCompanyIgnore_id (st : DBState) (raw : String)
    (h : normalize_company_name raw = ""
      ∨ st.companies.any (fun cr => cr.name_normalized == normalize_company_name raw) = true) :
    insertCompanyIgnore st raw = st := by
  unfold insertCompanyIgnore
  dsimp only
  rcases h with h | h
  · rw [if_pos h]
  · by_cases h0 : normalize_company_name raw = ""
    · rw [if_pos h0]
    · rw [if_neg h0, if_pos h]

theorem foldl_insert_id (raws : List String) :
    ∀ st : DBState,
      (∀ raw ∈ raws, normalize_company_name raw = ""
        ∨ st.companies.any (fun cr => cr.name_normalized == normalize_company_name raw) = true) →
      raws.foldl insertCompanyIgnore st = st := by
  induction raws with
  | nil => intro st _; rfl
  | cons a t ih =>
    intro st h
    rw [List.foldl_cons, insertCompanyIgnore_id st a (h a (List.mem_cons_self a t))]
    exact ih st fun raw hr => h raw (List.mem_cons_of_mem a hr)

theorem linkPosting_raw (cs : List CompanyRow) (p : PostingRow) :
    (linkPosting cs p).company_name_raw = p.company_name_raw := by
  unfold linkPosting
  split
  · rfl
  · dsimp only
    split
    · rfl
    · split <;> rfl

theorem linkPosting_some_fix (cs : List CompanyRow) (p : PostingRow)
    (h : p.company_id.isSome = true) : linkPosting cs p = p := by
  unfold linkPosting
  rw [if_pos h]

theorem linkPosting_linked (cs : List CompanyRow) (p : PostingRow) :
    linkPosting cs p = p ∨ (linkPosting cs p).company_id.isSome = true := by
  unfold linkPosting
  by_cases h1 : p.company_id.isSome = true
  · rw [if_pos h1]
    exact Or.inl rfl
  · rw [if_neg h1]
    dsimp only
    by_cases h2 : normalize_company_name p.company_name_raw = ""
    · rw [if_pos h2]
      exact Or.inl rfl
    · rw [if_neg h2]
      cases hf : cs.find?
          (fun cr => cr.name_normalized == normalize_company_name p.company_name_raw) with
      | none => exact Or.inl rfl
      | some cr => exact Or.inr rfl

theorem linkPosting_idem (cs : List CompanyRow) (p : PostingRow) :
    linkPosting cs (linkPosting cs p) = linkPosting cs p := by
  rcases linkPosting_linked cs p with h | h
  · rw [h]
    exact h
  · exact linkPosting_some_fix cs _ h

theorem run_raws (s : DBState) :
    (normalizeCompaniesStep s).postings.map (·.company_name_raw)
      = s.postings.map (·.company_name_raw) := by
  unfold normalizeCompaniesStep linkStep2
  dsimp only
  rw [linkStep1_postings, List.map_map]
  exact List.map_congr_left fun p _ => linkPosting_raw _ p

/-- C8: the linking pass of `normalize_companies.run_step` is
idempotent — running it a second time changes neither the `companies`
table nor the `job_postings` table. -/
theorem C8_linking_pass_idempotent (s : DBState) :
    normalizeCompaniesStep (normalizeCompaniesStep s) = normalizeCompaniesStep s := by
  have hcomp : (normalizeCompaniesStep s).companies = (linkStep1 s).companies := rfl
  have hstep1id : linkStep1 (normalizeCompaniesStep s) = normalizeCompaniesStep s := by
    unfold linkStep1
    apply foldl_insert_id
    intro raw hraw
    by_cases hne : normalize_company_name raw = ""
    · exact Or.inl hne
    · right
      rw [hcomp]
      have hmem : raw ∈ s.postings.map (·.company_name_raw) := by
        have := List.mem_dedup.mp hraw
        rwa [run_raws s] at this
      rw [List.mem_map] at hmem
      obtain ⟨p, hp, hpr⟩ := hmem
      have hmem' : raw ∈ (s.postings.map (·.company_name_raw)).dedup :=
        List.mem_dedup.mpr (List.mem_map.mpr ⟨p, hp, hpr⟩)
      exact foldl_insert_complete _ s raw hmem' hne
  show linkStep2 (linkStep1 (normalizeCompaniesStep s)) = normalizeCompaniesStep s
  rw [hstep1id]
  have hpost : (normalizeCompaniesStep s).postings.map
      (linkPosting (normalizeCompaniesStep s).companies)
      = (normalizeCompaniesStep s).postings := by
    have hp : (normalizeCompaniesStep s).postings
        = (linkStep1 s).postings.map (linkPosting (linkStep1 s).companies) := rfl
    rw [hcomp, hp, List.map_map]
    exact List.map_congr_left fun p _ => linkPosting_idem _ p
  unfold linkStep2
  rw [hpost]

/-! ## Claim C10 (company upsert frame conditions) -/

theorem applyFields_empty (f : FieldsUpdate) (h : f.isEmpty = true) (x : FullCompanyRow) :
    applyFields f x = x := by
  unfold FieldsUpdate.isEmpty at h
  simp only [Bool.and_eq_true, Option.isNone_iff_eq_none] at h
  obtain ⟨⟨⟨⟨h1, h2⟩, h3⟩, h4⟩, h5⟩ := h
  unfold applyFields
  rw [h1, h2, h3, h4, h5]
  rfl

/-- C10: when the normalized name already exists,
`insert_or_update_company` returns the existing row's id and rewrites
the table by updating only the columns named in the fields mapping on
the matching row; `id`, `name_normalized`, every unnamed column and
every other row are unchanged, and an empty mapping changes nothing. -/
theorem C10_upsert_frame (table : List FullCompanyRow) (nextId : Nat) (name : String)
    (f : FieldsUpdate) (r : FullCompanyRow)
    (hfind : table.find? (fun x => x.name_normalized == name) = some r) :
    (insert_or_update_company table nextId name f).2 = r.id
    ∧ (insert_or_update_company table nextId name f).1.2 = nextId
    ∧ (insert_or_update_company table nextId name f).1.1
        = table.map (fun x => if x.name_normalized == name then applyFields f x else x)
    ∧ (∀ x : FullCompanyRow, (applyFields f x).id = x.id
        ∧ (applyFields f x).name_normalized = x.name_normalized)
    ∧ (f.linkedin_url = none →
        ∀ x : FullCompanyRow, (applyFields f x).linkedin_url = x.linkedin_url)
    ∧ (f.headcount_poland = none →
        ∀ x : FullCompanyRow, (applyFields f x).headcount_poland = x.headcount_poland)
    ∧ (f.industry = none →
        ∀ x : FullCompanyRow, (applyFields f x).industry = x.industry)
    ∧ (f.is_icp_match = none →
        ∀ x : FullCompanyRow, (applyFields f x).is_icp_match = x.is_icp_match)
    ∧ (f.is_existing_customer = none →
        ∀ x : FullCompanyRow, (applyFields f x).is_existing_customer = x.is_existing_customer)
    ∧ (∀ x ∈ table, x.name_normalized ≠ name →
        x ∈ (insert_or_update_company table nextId name f).1.1)
    ∧ (f.isEmpty = true → (insert_or_update_company table nextId name f).1.1 = table) := by
  have hmap : (insert_or_update_company table nextId name f).1.1
      = table.map (fun x => if x.name_normalized == name then applyFields f x else x) := by
    unfold insert_or_update_company
    rw [hfind]
    dsimp only
    by_cases he : f.isEmpty = true
    · rw [if_pos he]
      have : (fun x : FullCompanyRow =>
          if x.name_normalized == name then applyFields f x else x) = fun x => x := by
        funext x
        by_cases hx : (x.name_normalized == name) = true
        · rw [if_pos hx, applyFields_empty f he]
        · rw [if_neg hx]
      rw [this]
      simp
    · rw [if_neg he]
  refine ⟨?_, ?_, hmap, ?_, ?_, ?_, ?_, ?_, ?_, ?_, ?_⟩
  · unfold insert_or_update_company
    rw [hfind]
  · unfold insert_or_update_company
    rw [hfind]
  · intro x
    exact ⟨rfl, rfl⟩
  · intro h x
    unfold applyFields
    rw [h]
    rfl
  · intro h x
    unfold applyFields
    rw [h]
    rfl
  · intro h x
    unfold applyFields
    rw [h]
    rfl
  · intro h x
    unfold applyFields
    rw [h]
    rfl
  · intro h x
    unfold applyFields
    rw [h]
    rfl
  · intro x hx hne
    rw [hmap]
    have hcond : (x.name_normalized == name) = false := beq_eq_false_iff_ne.mpr hne
    have : (if x.name_normalized == name then applyFields f x else x) = x := by
      rw [hcond]
      rfl
    rw [← this]
    exact List.mem_map_of_mem _ hx
  · intro he
    unfold insert_or_update_company
    rw [hfind]
    dsimp only
    rw [if_pos he]

/-- Two concrete company rows and a one-column update used as the C10
witness. -/
def companyRowA : FullCompanyRow :=
  { id := 1, name_normalized := "acme", linkedin_url := none
    headcount_poland := some 300, industry := none
    is_icp_match := none, is_existing_customer := none }

def companyRowB : FullCompanyRow :=
  { id := 2, name_normalized := "beta", linkedin_url := some "https://linkedin.com/beta"
    headcount_poland := none, industry := none
    is_icp_match := none, is_existing_customer := none }

def fieldsHeadcount : FieldsUpdate :=
  { linkedin_url := none, headcount_poland := some (some 500)
    industry := none, is_icp_match := none, is_existing_customer := none }

/-- Witness for C10: updating the headcount of an existing company in
a two-row table. -/
theorem C10_upsert_frame_witness :
    (insert_or_update_company [companyRowA, companyRowB] 3 "beta" fieldsHeadcount).2
        = companyRowB.id
    ∧ (insert_or_update_company [companyRowA, companyRowB] 3 "beta" fieldsHeadcount).1.1
        = [companyRowA, companyRowB].map
            (fun x => if x.name_normalized == "beta" then applyFields fieldsHeadcount x else x)
    ∧ (fieldsHeadcount.linkedin_url = none →
        ∀ x : FullCompanyRow,
          (applyFields fieldsHeadcount x).linkedin_url = x.linkedin_url) := by
  have h := C10_upsert_frame [companyRowA, companyRowB] 3 "beta" fieldsHeadcount companyRowB
    (by decide)
  exact ⟨h.1, h.2.2.1, h.2.2.2.2.1⟩

end HrAlerter
